import Mathlib

set_option linter.unusedVariables false

/-! Shallow embedding of the pixelator/quantizer core (`src/lib/core.ts`) and of the
caller's request-coalescing logic (`src/routes/+page.svelte`), followed by theorems
about the embedded program.

Pixel buffers (`Uint8ClampedArray` inside a DOM `ImageData`) are modelled as
`List Nat`; writes clamp to the byte range, as the clamped array does.  The
`Math.random()` draws of `buildPalette` are modelled by an explicit stream
`rand : Nat → Nat` together with a running draw counter `t`: the `t`-th draw of
`Math.floor(Math.random() * len)` becomes `rand t % len`. -/

/-- Pixel color triple, as in `export type RGB = [number, number, number]`. -/
abbrev RGB : Type := Nat × Nat × Nat

/-- Model of the DOM `ImageData`: width, height and the flat RGBA byte list. -/
structure ImageData where
  width : Nat
  height : Nat
  data : List Nat
deriving DecidableEq, Repr

/-- Data-model invariant of the spec: `pixels.length = width*height*4` and
every stored byte is an 8-bit value. -/
def WellFormed (img : ImageData) : Prop :=
  img.data.length = 4 * (img.width * img.height) ∧ ∀ v ∈ img.data, v ≤ 255

/-- Storing a value in a `Uint8ClampedArray` clamps it into the byte range. -/
def clampByte (v : Nat) : Nat := min v 255

/-- Squared Euclidean RGB distance `dr*dr + dg*dg + db*db` (exact in the source's
float arithmetic at these magnitudes, so embedded over `Int`). -/
def sqDist (r g b : Nat) (c : RGB) : Int :=
  ((r : Int) - c.1) * ((r : Int) - c.1) + ((g : Int) - c.2.1) * ((g : Int) - c.2.1) +
    ((b : Int) - c.2.2) * ((b : Int) - c.2.2)

/-- The comparison `dist < bestDist`, where `none` stands for the initial
`bestDist = Infinity`. -/
def ltBest (d : Int) : Option Int → Bool
  | none => true
  | some bd => decide (d < bd)

/-- The argmin loop shared verbatim by `qunatizeImage` and the k-means assignment
step: scan the remaining entries (the head having global index `p`), keeping the
running `(bestIdx, bestDist)` state and replacing it on strict `<`. -/
def nearestLoop (r g b : Nat) : List RGB → Nat → Nat × Option Int → Nat × Option Int
  | [], _, st => st
  | c :: rest, p, (bi, bd) =>
    if ltBest (sqDist r g b c) bd then
      nearestLoop r g b rest (p + 1) (p, some (sqDist r g b c))
    else
      nearestLoop r g b rest (p + 1) (bi, bd)

/-- Index of the palette/centroid entry nearest to `(r,g,b)` (first found wins on
ties), starting from `bestIdx = 0`, `bestDist = Infinity`. -/
def nearestIdx (cs : List RGB) (r g b : Nat) : Nat :=
  (nearestLoop r g b cs 0 (0, none)).1

/-- Body of `qunatizeImage`'s pixel loop: read pixel `i`'s RGB at byte offset
`i*4`, find the nearest palette entry, overwrite the three color bytes (alpha at
`i*4+3` untouched). -/
def quantizePixel (palette : List RGB) (data : List Nat) (i : Nat) : List Nat :=
  let idx := i * 4
  let r := data.getD idx 0
  let g := data.getD (idx + 1) 0
  let b := data.getD (idx + 2) 0
  let best := palette.getD (nearestIdx palette r g b) (0, 0, 0)
  ((data.set idx (clampByte best.1)).set (idx + 1) (clampByte best.2.1)).set (idx + 2)
    (clampByte best.2.2)

/-- `qunatizeImage` (spelling of the source): map every pixel `i < data.length/4`
to its nearest palette color, in place on the working copy (modelled functionally
by folding the loop body over the pixel indices). -/
def qunatizeImage (img : ImageData) (palette : List RGB) : ImageData :=
  ⟨img.width, img.height,
    (List.range (img.data.length / 4)).foldl (quantizePixel palette) img.data⟩

/-- Write one RGBA quadruple at byte offset `idx` (clamped-array store semantics,
out-of-range stores are dropped just as for a typed array). -/
def setRGBA (data : List Nat) (idx r g b a : Nat) : List Nat :=
  (((data.set idx (clampByte r)).set (idx + 1) (clampByte g)).set (idx + 2)
    (clampByte b)).set (idx + 3) (clampByte a)

/-- Body of `pixelateImage`'s per-block work: read the RGBA of the block's clamped
center `(cx, cy)` once, then copy it over every pixel of the block
`[bx, min (bx+size) w) × [yb, min (yb+size) h)`. -/
def fillBlock (w h size yb bx : Nat) (data : List Nat) : List Nat :=
  let cx := min (bx + size / 2) (w - 1)
  let cy := min (yb + size / 2) (h - 1)
  let cIdx := (cy * w + cx) * 4
  let r := data.getD cIdx 0
  let g := data.getD (cIdx + 1) 0
  let b := data.getD (cIdx + 2) 0
  let a := data.getD (cIdx + 3) 0
  let maxY := min (yb + size) h
  let maxX := min (bx + size) w
  (List.range' yb (maxY - yb)).foldl
    (fun d y =>
      (List.range' bx (maxX - bx)).foldl (fun d2 x => setRGBA d2 ((y * w + x) * 4) r g b a) d)
    data

/-- Iteration sequence `0, size, 2*size, …` of a `for (v = 0; v < limit; v += size)`
loop: `⌈limit / size⌉` many block starts. -/
def blockStarts (size limit : Nat) : List Nat :=
  (List.range ((limit + size - 1) / size)).map (fun j => j * size)

/-- One block row of `pixelateImage`: all blocks `(bx, yb)` with `bx` ranging over
the block starts below `width`, processed left to right. -/
def pixelateRow (w h size yb : Nat) (data : List Nat) : List Nat :=
  (blockStarts size w).foldl (fun d bx => fillBlock w h size yb bx d) data

/-- The full double block loop of `pixelateImage` over the pixel data. -/
def pixelateData (w h size : Nat) (data : List Nat) : List Nat :=
  (blockStarts size h).foldl (fun d yb => pixelateRow w h size yb d) data

/-- `pixelateImage`: effective block size `max(1, floor(blockSize))`, then the
double loop over block rows and block columns. -/
def pixelateImage (img : ImageData) (blockSize : Int) : ImageData :=
  ⟨img.width, img.height,
    pixelateData img.width img.height (max 1 blockSize).toNat img.data⟩

/-- Sample read of `buildPalette`: RGB bytes of the pixel at linear index `i`
(byte offset `i * 4`). -/
def readRGB (data : List Nat) (i : Nat) : RGB :=
  (data.getD (i * 4) 0, data.getD (i * 4 + 1) 0, data.getD (i * 4 + 2) 0)

/-- The strided sample set of `buildPalette`: pixels `0, step, 2*step, …` below
`total` (`for (let i = 0; i < totalPixels; i += step)`), in walk order. -/
def imageSamples (data : List Nat) (step total : Nat) : List RGB :=
  (List.range ((total + step - 1) / step)).map (fun j => readRGB data (j * step))

/-- Initial centroid seeding: `k` random draws `samples[floor(random()*len)]`,
the `t`-th draw reading `rand t % len`. -/
def initCenters (samples : List RGB) (k : Nat) (rand : Nat → Nat) : List RGB :=
  (List.range k).map (fun t => samples.getD (rand t % samples.length) (0, 0, 0))

/-- Number of samples assigned to cluster `c` (the source's `counts[c]`). -/
def clusterCount (pairs : List (RGB × Nat)) (c : Nat) : Nat :=
  (pairs.filter (fun q => q.2 = c)).length

/-- Per-channel sum over the samples assigned to cluster `c` (the source's
`sums[c]`), `ch` selecting the channel. -/
def clusterSum (pairs : List (RGB × Nat)) (c : Nat) (ch : RGB → Nat) : Nat :=
  (pairs.filter (fun q => q.2 = c)).foldl (fun s q => s + ch q.1) 0

/-- `Math.round(s / cnt)` on the naturals arising here: round half up, i.e.
`(2*s + cnt) / (2*cnt)` (the source's float division is exact enough at these
magnitudes for this to be the value it computes). -/
def roundDiv (s cnt : Nat) : Nat := (2 * s + cnt) / (2 * cnt)

/-- The centroid update loop over clusters `c`: a nonempty cluster gets the
rounded per-channel mean of its samples, an empty cluster is re-seeded from a
fresh random draw; the draw counter `t` is threaded through. -/
def updateCenters (samples : List RGB) (pairs : List (RGB × Nat)) (rand : Nat → Nat) :
    List Nat → Nat → List RGB × Nat
  | [], t => ([], t)
  | c :: cs, t =>
    if 0 < clusterCount pairs c then
      let center : RGB :=
        (roundDiv (clusterSum pairs c (fun p => p.1)) (clusterCount pairs c),
          roundDiv (clusterSum pairs c (fun p => p.2.1)) (clusterCount pairs c),
          roundDiv (clusterSum pairs c (fun p => p.2.2)) (clusterCount pairs c))
      let rest := updateCenters samples pairs rand cs t
      (center :: rest.1, rest.2)
    else
      let center := samples.getD (rand t % samples.length) (0, 0, 0)
      let rest := updateCenters samples pairs rand cs (t + 1)
      (center :: rest.1, rest.2)

/-- One k-means round: the assignment step (the same argmin loop as quantization,
against the current centers) followed by the update step over clusters `0..k-1`. -/
def kmeansStep (samples : List RGB) (k : Nat) (rand : Nat → Nat)
    (centers : List RGB) (t : Nat) : List RGB × Nat :=
  let pairs := samples.map (fun p => (p, nearestIdx centers p.1 p.2.1 p.2.2))
  updateCenters samples pairs rand (List.range k) t

/-- The bounded iteration loop: exactly `maxIters` full rounds, no early exit. -/
def kmeansIter (samples : List RGB) (k : Nat) (rand : Nat → Nat) :
    Nat → List RGB → Nat → List RGB × Nat
  | 0, centers, t => (centers, t)
  | n + 1, centers, t =>
    let st := kmeansStep samples k rand centers t
    kmeansIter samples k rand n st.1 st.2

/-- `buildPalette`: clamp `k` into `[1,256]`, draw the strided samples
(`step = max(1, floor(totalPixels/5000))`), fall back to `[(0,0,0)]` when the
sample set is empty, otherwise seed `k` random centers and run the k-means
rounds, returning the final centers. -/
def buildPalette (img : ImageData) (k : Int) (maxIters : Nat) (rand : Nat → Nat) :
    List RGB :=
  let total := img.width * img.height
  let kc := (max 1 (min k 256)).toNat
  let step := max 1 (total / 5000)
  let samples := imageSamples img.data step total
  if samples.length = 0 then [(0, 0, 0)]
  else (kmeansIter samples kc rand maxIters (initCenters samples kc rand) kc).1

/-- `processImage`: duplicate the source buffer (the typed-array copy is
byte-exact), then optionally quantize the copy against a palette built from the
copy, then optionally pixelate; the untouched source is returned nowhere. -/
def processImage (source : ImageData) (pixelate : Bool) (blockSize : Int)
    (quantize : Bool) (paletteSize : Int) (maxKMeansIters : Nat) (rand : Nat → Nat) :
    ImageData :=
  let copy : ImageData := ⟨source.width, source.height, source.data⟩
  let c1 :=
    if quantize then
      qunatizeImage copy (buildPalette copy paletteSize maxKMeansIters rand)
    else copy
  if pixelate then pixelateImage c1 blockSize else c1

/-- Heap-level view of `processImage` for the aliasing claim: buffers live in a
heap of cells addressed by index, the source is read from its cell, the working
copy is a freshly allocated cell, every mutation of the pipeline happens in the
fresh cell, and the fresh cell's address is returned. -/
def processImageHeap (heap : List ImageData) (src : Nat) (pixelate : Bool)
    (blockSize : Int) (quantize : Bool) (paletteSize : Int) (maxKMeansIters : Nat)
    (rand : Nat → Nat) : List ImageData × Nat :=
  let source := heap.getD src ⟨0, 0, []⟩
  (heap ++ [processImage source pixelate blockSize quantize paletteSize maxKMeansIters rand],
    heap.length)

/-- Caller-side state of `+page.svelte`'s coalescing logic: the `isProcessing`
and `pendingRun` flags, plus a count of the `postMessage` calls issued so far
(responses are a separate event and never touch these flags in the source). -/
structure CallerState where
  isProcessing : Bool
  pendingRun : Bool
  sent : Nat
deriving DecidableEq, Repr

/-- `processAndRender` of `+page.svelte`: if busy, record a pending run; otherwise
set the busy flag, post the message, and — in the `finally` block, immediately
after posting and before any response can arrive — clear the busy flag and replay
one pending run. -/
def processAndRender (s : CallerState) : CallerState :=
  if s.isProcessing then { s with pendingRun := true }
  else
    let s1 : CallerState := { s with isProcessing := true }
    let s2 : CallerState := { s1 with sent := s1.sent + 1 }
    let s3 : CallerState := { s2 with isProcessing := false }
    if s3.pendingRun then processAndRender { s3 with pendingRun := false } else s3
termination_by (if s.pendingRun then 1 else 0) + (if s.isProcessing then 1 else 0)
decreasing_by simp_all

/-- The palette entry the source writes for pixel `i` (`palette[bestIdx]` for the
pixel's RGB read at byte offset `i*4`). -/
def nearestEntry (palette : List RGB) (data : List Nat) (i : Nat) : RGB :=
  palette.getD
    (nearestIdx palette (data.getD (i * 4) 0) (data.getD (i * 4 + 1) 0)
      (data.getD (i * 4 + 2) 0)) (0, 0, 0)

/-- Value written into channel `c` of a filled pixel. -/
def rgbaComp (r g b a c : Nat) : Nat :=
  if c = 0 then clampByte r
  else if c = 1 then clampByte g
  else if c = 2 then clampByte b
  else clampByte a

/-- Concrete 2×2 RGBA image used by the pixelation witnesses. -/
def sampleImage22 : ImageData :=
  ⟨2, 2, [1, 2, 3, 4, 5, 6, 7, 8, 9, 10, 11, 12, 13, 14, 15, 16]⟩

/-! ### Arithmetic helpers for flat RGBA indexing -/

theorem pix_lt {x y w h : Nat} (hx : x < w) (hy : y < h) : y * w + x < w * h := by
  calc y * w + x < y * w + w := by omega
    _ = (y + 1) * w := by ring
    _ ≤ h * w := Nat.mul_le_mul_right w hy
    _ = w * h := Nat.mul_comm h w

theorem pix_mod {x w : Nat} (y : Nat) (hx : x < w) : (y * w + x) % w = x := by
  rw [Nat.add_comm, Nat.add_mul_mod_self_right]
  exact Nat.mod_eq_of_lt hx

theorem pix_div {x w : Nat} (y : Nat) (hx : x < w) : (y * w + x) / w = y := by
  rw [Nat.add_comm, Nat.add_mul_div_right _ _ (by omega : 0 < w), Nat.div_eq_of_lt hx]
  omega

theorem pix_inj {x1 y1 x2 y2 w : Nat} (hx1 : x1 < w) (hx2 : x2 < w)
    (h : y1 * w + x1 = y2 * w + x2) : x1 = x2 ∧ y1 = y2 := by
  constructor
  · have := pix_mod y1 hx1
    rw [h, pix_mod y2 hx2] at this
    omega
  · have := pix_div y1 hx1
    rw [h, pix_div y2 hx2] at this
    omega

theorem div_in_block {x j size : Nat} (h1 : j * size ≤ x) (h2 : x < (j + 1) * size) :
    x / size = j :=
  Nat.div_eq_of_lt_le h1 h2

theorem lt_ceilDiv_iff {j size limit : Nat} (hs : 0 < size) :
    j < (limit + size - 1) / size ↔ j * size < limit := by
  rcases Nat.eq_zero_or_pos limit with h0 | h0
  · subst h0
    have hz : (0 + size - 1) / size = 0 := Nat.div_eq_of_lt (by omega)
    rw [hz]
    omega
  · rw [Nat.lt_iff_add_one_le, Nat.le_div_iff_mul_le hs, Nat.add_mul, Nat.one_mul]
    omega

theorem ceilDiv_mul_ge {size limit : Nat} (hs : 0 < size) :
    limit ≤ ((limit + size - 1) / size) * size := by
  have := @lt_ceilDiv_iff ((limit + size - 1) / size) size limit hs
  omega

/-! ### List access helpers -/

theorem getD_set (l : List Nat) (i v m : Nat) (h : i < l.length) :
    (l.set i v).getD m 0 = if m = i then v else l.getD m 0 := by
  simp only [List.getD_eq_getElem?_getD]
  rcases eq_or_ne m i with rfl | hne
  · simp [List.getElem?_set_self', h]
  · simp [List.getElem?_set_ne (Ne.symm hne), hne]

theorem foldl_length {α : Type} (f : List Nat → α → List Nat)
    (hf : ∀ d x, (f d x).length = d.length) :
    ∀ (l : List α) (data : List Nat), (l.foldl f data).length = data.length := by
  intro l
  induction l with
  | nil => intro data; rfl
  | cons x xs ih => intro data; rw [List.foldl_cons, ih, hf]

theorem clampByte_le (v : Nat) : clampByte v ≤ 255 := by
  simp [clampByte]

theorem clampByte_eq {v : Nat} (h : v ≤ 255) : clampByte v = v := by
  simp [clampByte, h]

/-! ### Basic preservation facts about the pipeline stages -/

theorem qunatizeImage_dims (img : ImageData) (palette : List RGB) :
    (qunatizeImage img palette).width = img.width ∧
      (qunatizeImage img palette).height = img.height := ⟨rfl, rfl⟩

theorem quantizePixel_length (palette : List RGB) (data : List Nat) (i : Nat) :
    (quantizePixel palette data i).length = data.length := by
  simp [quantizePixel]

theorem qunatizeImage_length (img : ImageData) (palette : List RGB) :
    (qunatizeImage img palette).data.length = img.data.length := by
  unfold qunatizeImage
  exact foldl_length _ (quantizePixel_length palette) _ _

theorem setRGBA_length (data : List Nat) (idx r g b a : Nat) :
    (setRGBA data idx r g b a).length = data.length := by
  simp [setRGBA]

theorem fillBlock_length (w h size yb bx : Nat) (data : List Nat) :
    (fillBlock w h size yb bx data).length = data.length := by
  unfold fillBlock
  refine foldl_length _ (fun d y => ?_) _ _
  exact foldl_length _ (fun d2 x => setRGBA_length _ _ _ _ _ _) _ _

theorem pixelateRow_length (w h size yb : Nat) (data : List Nat) :
    (pixelateRow w h size yb data).length = data.length := by
  unfold pixelateRow
  exact foldl_length _ (fun d bx => fillBlock_length _ _ _ _ _ _) _ _

theorem pixelateData_length (w h size : Nat) (data : List Nat) :
    (pixelateData w h size data).length = data.length := by
  unfold pixelateData
  exact foldl_length _ (fun d yb => pixelateRow_length _ _ _ _ _) _ _

theorem pixelateImage_dims (img : ImageData) (blockSize : Int) :
    (pixelateImage img blockSize).width = img.width ∧
      (pixelateImage img blockSize).height = img.height := ⟨rfl, rfl⟩

theorem pixelateImage_length (img : ImageData) (blockSize : Int) :
    (pixelateImage img blockSize).data.length = img.data.length :=
  pixelateData_length _ _ _ _

theorem processImage_dims (source : ImageData) (pixelate : Bool) (blockSize : Int)
    (quantize : Bool) (paletteSize : Int) (maxKMeansIters : Nat) (rand : Nat → Nat) :
    (processImage source pixelate blockSize quantize paletteSize maxKMeansIters rand).width =
        source.width ∧
      (processImage source pixelate blockSize quantize paletteSize maxKMeansIters rand).height =
        source.height := by
  unfold processImage
  rcases pixelate <;> rcases quantize <;> simp [pixelateImage, qunatizeImage]

/-! ### Claim C8: neither effect enabled returns a byte-identical buffer -/

/-- C8: for every input buffer, running the pipeline with `doQuantize = false` and
`doPixelate = false` returns an output buffer byte-identical to the input (same
width, same height, same pixel bytes). -/
theorem processImage_neither_effect_id (source : ImageData) (blockSize : Int)
    (paletteSize : Int) (maxKMeansIters : Nat) (rand : Nat → Nat) :
    processImage source false blockSize false paletteSize maxKMeansIters rand = source :=
  rfl

/-! ### Claim C1: the pipeline never mutates the source buffer -/

/-- C1: on the heap view of a pipeline run, every pre-existing cell — in
particular the source buffer — is byte-for-byte unchanged, the returned address
is a fresh cell distinct from the source's, and that fresh cell holds the
transformed copy. -/
theorem processImageHeap_no_mutation (heap : List ImageData) (src : Nat)
    (pixelate : Bool) (blockSize : Int) (quantize : Bool) (paletteSize : Int)
    (maxKMeansIters : Nat) (rand : Nat → Nat) (hsrc : src < heap.length) :
    (∀ j, j < heap.length →
      (processImageHeap heap src pixelate blockSize quantize paletteSize maxKMeansIters
          rand).1.getD j ⟨0, 0, []⟩ = heap.getD j ⟨0, 0, []⟩) ∧
    (processImageHeap heap src pixelate blockSize quantize paletteSize maxKMeansIters
        rand).2 ≠ src ∧
    (processImageHeap heap src pixelate blockSize quantize paletteSize maxKMeansIters
          rand).1.getD
        (processImageHeap heap src pixelate blockSize quantize paletteSize maxKMeansIters
          rand).2 ⟨0, 0, []⟩ =
      processImage (heap.getD src ⟨0, 0, []⟩) pixelate blockSize quantize paletteSize
        maxKMeansIters rand := by
  refine ⟨fun j hj => ?_, ?_, ?_⟩
  · exact List.getD_append _ _ _ _ hj
  · exact fun h => absurd h.symm (Nat.ne_of_lt hsrc)
  · show (heap ++ [_]).getD heap.length _ = _
    simp [List.getD_eq_getElem?_getD, List.getElem?_append_right (le_refl heap.length)]

/-- Witness for C1 at a concrete heap. -/
theorem processImageHeap_no_mutation_witness :
    (0 : Nat) < [ImageData.mk 1 1 [9, 9, 9, 9]].length ∧
      (processImageHeap [ImageData.mk 1 1 [9, 9, 9, 9]] 0 false 4 false 4 8
          (fun _ => 0)).1.getD 0 ⟨0, 0, []⟩ =
        ([ImageData.mk 1 1 [9, 9, 9, 9]]).getD 0 ⟨0, 0, []⟩ :=
  ⟨by decide,
    (processImageHeap_no_mutation [ImageData.mk 1 1 [9, 9, 9, 9]] 0 false 4 false 4 8
        (fun _ => 0) (by decide)).1 0 (by decide)⟩

/-! ### Claim C9: determinism given identical random draws -/

/-- C9: with the `Math.random()` draws made explicit as a stream, two pipeline
runs on the same input with the same parameters and identical draw streams
produce the same palette and the same output; moreover the draw stream reaches
the output only through `buildPalette` (runs whose palettes agree produce equal
outputs), and with quantization disabled the output does not depend on the
stream at all. -/
theorem processImage_deterministic (img : ImageData) (pixelate : Bool)
    (blockSize : Int) (quantize : Bool) (paletteSize : Int) (maxKMeansIters : Nat)
    (r1 r2 : Nat → Nat) :
    ((∀ t, r1 t = r2 t) →
      buildPalette img paletteSize maxKMeansIters r1 =
          buildPalette img paletteSize maxKMeansIters r2 ∧
        processImage img pixelate blockSize quantize paletteSize maxKMeansIters r1 =
          processImage img pixelate blockSize quantize paletteSize maxKMeansIters r2) ∧
    (buildPalette img paletteSize maxKMeansIters r1 =
        buildPalette img paletteSize maxKMeansIters r2 →
      processImage img pixelate blockSize quantize paletteSize maxKMeansIters r1 =
        processImage img pixelate blockSize quantize paletteSize maxKMeansIters r2) ∧
    (quantize = false →
      processImage img pixelate blockSize quantize paletteSize maxKMeansIters r1 =
        processImage img pixelate blockSize quantize paletteSize maxKMeansIters r2) := by
  have hkey : ∀ (q : Bool), buildPalette img paletteSize maxKMeansIters r1 =
      buildPalette img paletteSize maxKMeansIters r2 →
      processImage img pixelate blockSize q paletteSize maxKMeansIters r1 =
        processImage img pixelate blockSize q paletteSize maxKMeansIters r2 := by
    intro q hp
    unfold processImage
    rcases q with _ | _
    · rfl
    · simp only [if_pos rfl]
      rw [show (⟨img.width, img.height, img.data⟩ : ImageData) = img from rfl, hp]
  refine ⟨fun hr => ?_, hkey quantize, fun hq => ?_⟩
  · have : r1 = r2 := funext hr
    subst this
    exact ⟨rfl, rfl⟩
  · subst hq
    rfl

/-- Witness for C9 at a concrete input and stream. -/
theorem processImage_deterministic_witness :
    processImage (ImageData.mk 1 1 [1, 2, 3, 4]) true 2 true 2 8 (fun _ => 0) =
      processImage (ImageData.mk 1 1 [1, 2, 3, 4]) true 2 true 2 8 (fun t => t * 0) :=
  ((processImage_deterministic (ImageData.mk 1 1 [1, 2, 3, 4]) true 2 true 2 8
      (fun _ => 0) (fun t => t * 0)).1 (fun t => by simp)).2

/-! ### Claim C7: the in-flight coalescing of `processAndRender` -/

/-- C7, evaluated at the failing scenario: from the idle state, one call to
`processAndRender` posts a message and — although no response has been received —
already leaves `isProcessing = false`; a second call arriving while that first
request is still in flight therefore posts immediately (two messages in flight)
instead of being recorded in `pendingRun`. -/
theorem processAndRender_busy_flag_gap :
    processAndRender ⟨false, false, 0⟩ = ⟨false, false, 1⟩ ∧
      processAndRender (processAndRender ⟨false, false, 0⟩) = ⟨false, false, 2⟩ := by
  have h1 : processAndRender ⟨false, false, 0⟩ = ⟨false, false, 1⟩ := by
    rw [processAndRender]
    simp
  refine ⟨h1, ?_⟩
  rw [h1, processAndRender]
  simp

/-! ### Palette construction: length facts (claims C4, C5) -/

theorem imageSamples_length (data : List Nat) (step total : Nat) :
    (imageSamples data step total).length = (total + step - 1) / step := by
  simp [imageSamples]

theorem updateCenters_length (samples : List RGB) (pairs : List (RGB × Nat))
    (rand : Nat → Nat) :
    ∀ (cs : List Nat) (t : Nat), (updateCenters samples pairs rand cs t).1.length = cs.length := by
  intro cs
  induction cs with
  | nil => intro t; rfl
  | cons c cs ih =>
    intro t
    unfold updateCenters
    split <;> simp [ih]

theorem kmeansStep_length (samples : List RGB) (k : Nat) (rand : Nat → Nat)
    (centers : List RGB) (t : Nat) :
    (kmeansStep samples k rand centers t).1.length = k := by
  unfold kmeansStep
  rw [updateCenters_length]
  simp

theorem kmeansIter_length (samples : List RGB) (k : Nat) (rand : Nat → Nat) :
    ∀ (n : Nat) (centers : List RGB) (t : Nat), centers.length = k →
      (kmeansIter samples k rand n centers t).1.length = k := by
  intro n
  induction n with
  | zero => intro centers t h; exact h
  | succ n ih =>
    intro centers t h
    unfold kmeansIter
    exact ih _ _ (kmeansStep_length _ _ _ _ _)

theorem initCenters_length (samples : List RGB) (k : Nat) (rand : Nat → Nat) :
    (initCenters samples k rand).length = k := by
  simp [initCenters]

/-- C4: `buildPalette` returns the single-entry palette `[(0,0,0)]` when the
image has zero pixels, and a palette of length exactly `min (max 1 k) 256` when
the image has at least one pixel. -/
theorem buildPalette_size (img : ImageData) (k : Int) (maxIters : Nat)
    (rand : Nat → Nat) :
    (img.width * img.height = 0 →
      buildPalette img k maxIters rand = [(0, 0, 0)]) ∧
    (0 < img.width * img.height →
      ((buildPalette img k maxIters rand).length : Int) = min (max 1 k) 256) := by
  have hstep : 0 < max 1 (img.width * img.height / 5000) := by omega
  have hlen := imageSamples_length img.data (max 1 (img.width * img.height / 5000))
    (img.width * img.height)
  have hiff := @lt_ceilDiv_iff 0 (max 1 (img.width * img.height / 5000))
    (img.width * img.height) hstep
  constructor
  · intro h0
    unfold buildPalette
    rw [if_pos]
    rw [hlen]
    omega
  · intro hpos
    unfold buildPalette
    rw [if_neg]
    · rw [kmeansIter_length _ _ _ _ _ _ (initCenters_length _ _ _)]
      omega
    · rw [hlen]
      omega

/-- Witness for C4: a one-pixel image with requested size 300 gets a palette of
length 256, and an empty image gets `[(0,0,0)]`. -/
theorem buildPalette_size_witness :
    buildPalette (ImageData.mk 0 0 []) 7 8 (fun _ => 0) = [(0, 0, 0)] ∧
      ((buildPalette (ImageData.mk 1 1 [1, 2, 3, 4]) 300 8 (fun _ => 0)).length : Int) =
        min (max 1 300) 256 :=
  ⟨(buildPalette_size (ImageData.mk 0 0 []) 7 8 (fun _ => 0)).1 (by decide),
    (buildPalette_size (ImageData.mk 1 1 [1, 2, 3, 4]) 300 8 (fun _ => 0)).2 (by decide)⟩

/-- C5 counterexample: on a concrete 1×1 image, the stride computed by the code
is 1 and the sample walk draws the full pixel population — the sample set is not
a proper subsample of the buffer's pixels. -/
theorem imageSamples_full_population_counterexample :
    imageSamples (ImageData.mk 1 1 [5, 6, 7, 8]).data
        (max 1 ((ImageData.mk 1 1 [5, 6, 7, 8]).width *
          (ImageData.mk 1 1 [5, 6, 7, 8]).height / 5000))
        ((ImageData.mk 1 1 [5, 6, 7, 8]).width * (ImageData.mk 1 1 [5, 6, 7, 8]).height) =
      [(5, 6, 7)] ∧
    ¬ (imageSamples (ImageData.mk 1 1 [5, 6, 7, 8]).data
          (max 1 ((ImageData.mk 1 1 [5, 6, 7, 8]).width *
            (ImageData.mk 1 1 [5, 6, 7, 8]).height / 5000))
          ((ImageData.mk 1 1 [5, 6, 7, 8]).width *
            (ImageData.mk 1 1 [5, 6, 7, 8]).height)).length <
        (ImageData.mk 1 1 [5, 6, 7, 8]).width * (ImageData.mk 1 1 [5, 6, 7, 8]).height := by
  decide

/-- C5 (amended): for a non-empty image, the strided sample walk with
`step = max(1, floor(total/5000))` draws `⌈total/step⌉` samples; this is a
proper subsample of the pixel population exactly when the image has at least
10000 pixels — below that the stride is 1 and the samples are the full
pixel population. -/
theorem imageSamples_proper_iff (img : ImageData) (h0 : 0 < img.width * img.height) :
    ((imageSamples img.data (max 1 (img.width * img.height / 5000))
          (img.width * img.height)).length < img.width * img.height ↔
        10000 ≤ img.width * img.height) ∧
      (img.width * img.height < 10000 →
        (imageSamples img.data (max 1 (img.width * img.height / 5000))
            (img.width * img.height)).length = img.width * img.height) := by
  rw [imageSamples_length]
  rcases Nat.lt_or_ge (img.width * img.height) 10000 with hlt | hge
  · have hS : max 1 (img.width * img.height / 5000) = 1 := by omega
    rw [hS]
    constructor
    · constructor
      · intro h; omega
      · intro h; omega
    · intro h; omega
  · have h2 : 2 ≤ img.width * img.height / 5000 := by omega
    have hS : max 1 (img.width * img.height / 5000) = img.width * img.height / 5000 := by
      omega
    rw [hS]
    have hSle : img.width * img.height / 5000 ≤ img.width * img.height :=
      Nat.div_le_self _ _
    rw [Nat.div_lt_iff_lt_mul (by omega)]
    have hmul : img.width * img.height * 2 ≤
        img.width * img.height * (img.width * img.height / 5000) :=
      Nat.mul_le_mul_left _ h2
    constructor
    · constructor
      · intro h; omega
      · intro h; omega
    · intro h; omega

/-! ### Claim C6: the palette of a 1×1 image -/

/-- C6 counterexample: for a concrete 1×1 image with requested palette size 2,
the palette built by the code has length 2, not 1 (its two entries are identical
copies of the single pixel's color, but the list is not of size 1). -/
theorem buildPalette_one_pixel_counterexample :
    buildPalette (ImageData.mk 1 1 [5, 6, 7, 8]) 2 8 (fun _ => 0) = [(5, 6, 7), (5, 6, 7)] ∧
      (buildPalette (ImageData.mk 1 1 [5, 6, 7, 8]) 2 8 (fun _ => 0)).length ≠ 1 := by
  decide

theorem nearestLoop_no_improve (r g b : Nat) :
    ∀ (rest : List RGB) (p bi : Nat) (v : Int),
      (∀ e ∈ rest, ¬ (sqDist r g b e < v)) →
      nearestLoop r g b rest p (bi, some v) = (bi, some v) := by
  intro rest
  induction rest with
  | nil => intro p bi v h; rfl
  | cons c cs ih =>
    intro p bi v h
    unfold nearestLoop
    rw [if_neg]
    · exact ih _ _ _ (fun e he => h e (List.mem_cons_of_mem c he))
    · simp [ltBest, h c (List.mem_cons_self c cs)]

theorem nearestIdx_replicate (c : RGB) (k r g b : Nat) :
    nearestIdx (List.replicate k c) r g b = 0 := by
  rcases k with _ | n
  · rfl
  · unfold nearestIdx
    rw [List.replicate_succ]
    unfold nearestLoop
    rw [if_pos (by simp [ltBest])]
    rw [nearestLoop_no_improve r g b _ _ _ _ (fun e he => ?_)]
    have : e = c := List.eq_of_mem_replicate he
    subst this
    omega

theorem roundDiv_one (s : Nat) : roundDiv s 1 = s := by
  unfold roundDiv
  omega

theorem updateCenters_single (s : RGB) (rand : Nat → Nat) :
    ∀ (cs : List Nat) (t : Nat),
      (updateCenters [s] [(s, 0)] rand cs t).1 = List.replicate cs.length s := by
  intro cs
  induction cs with
  | nil => intro t; rfl
  | cons c cs ih =>
    intro t
    unfold updateCenters
    rcases eq_or_ne c 0 with rfl | hc
    · rw [if_pos (by simp [clusterCount])]
      have hsum : ∀ ch : RGB → Nat, clusterSum [(s, 0)] 0 ch = ch s := by
        intro ch; simp [clusterSum]
      have hcnt : clusterCount [(s, 0)] 0 = 1 := by simp [clusterCount]
      simp only [List.replicate_succ, hsum, hcnt, roundDiv_one]
      rw [ih]
      simp [List.replicate_succ]
    · rw [if_neg (by simp [clusterCount, hc.symm])]
      simp only [List.replicate_succ, List.length_singleton, Nat.mod_one, List.getD]
      rw [ih]
      simp [List.replicate_succ]

theorem initCenters_single (s : RGB) (k : Nat) (rand : Nat → Nat) :
    initCenters [s] k rand = List.replicate k s := by
  unfold initCenters
  rw [List.eq_replicate_iff]
  refine ⟨by simp, fun b hb => ?_⟩
  simp only [List.mem_map, List.mem_range] at hb
  obtain ⟨t, ht, hb⟩ := hb
  simp [Nat.mod_one] at hb
  exact hb.symm

theorem kmeansStep_single (s : RGB) (k : Nat) (rand : Nat → Nat) (t : Nat) :
    (kmeansStep [s] k rand (List.replicate k s) t).1 = List.replicate k s := by
  unfold kmeansStep
  have hpair : [s].map (fun p => (p, nearestIdx (List.replicate k s) p.1 p.2.1 p.2.2)) =
      [(s, 0)] := by
    simp [nearestIdx_replicate]
  rw [hpair, updateCenters_single]
  simp

theorem kmeansIter_single (s : RGB) (k : Nat) (rand : Nat → Nat) :
    ∀ (n t : Nat), (kmeansIter [s] k rand n (List.replicate k s) t).1 = List.replicate k s := by
  intro n
  induction n with
  | zero => intro t; rfl
  | succ n ih =>
    intro t
    unfold kmeansIter
    simp only []
    rw [kmeansStep_single s k rand t]
    exact ih _

/-- C6 (amended): a pipeline run on a 1×1 image yields a 1×1 output for any
parameters, and the palette built for that image is `List.replicate kc s` where
`kc` is the clamped requested size and `s` the single pixel's color: every entry
is the same single color (one distinct color), but the list length is the clamped
requested `paletteSize`, not 1. -/
theorem buildPalette_one_pixel (img : ImageData) (k : Int) (maxIters : Nat)
    (rand : Nat → Nat) (pix qu : Bool) (bs : Int)
    (hw : img.width = 1) (hh : img.height = 1) :
    (processImage img pix bs qu k maxIters rand).width = 1 ∧
    (processImage img pix bs qu k maxIters rand).height = 1 ∧
    buildPalette img k maxIters rand =
      List.replicate (max 1 (min k 256)).toNat
        (img.data.getD 0 0, img.data.getD 1 0, img.data.getD 2 0) := by
  obtain ⟨hdw, hdh⟩ := processImage_dims img pix bs qu k maxIters rand
  refine ⟨by rw [hdw, hw], by rw [hdh, hh], ?_⟩
  unfold buildPalette
  rw [hw, hh]
  have hsamp : imageSamples img.data (max 1 (1 * 1 / 5000)) (1 * 1) =
      [readRGB img.data 0] := by
    norm_num [imageSamples, List.range_succ]
  simp only []
  rw [hsamp]
  rw [if_neg (by simp)]
  rw [initCenters_single, kmeansIter_single]
  rfl

/-- Witness for C6's amended theorem at a concrete 1×1 image. -/
theorem buildPalette_one_pixel_witness :
    buildPalette (ImageData.mk 1 1 [9, 8, 7, 6]) 3 8 (fun _ => 1) =
      List.replicate (max 1 (min (3 : Int) 256)).toNat
        ((ImageData.mk 1 1 [9, 8, 7, 6]).data.getD 0 0,
          (ImageData.mk 1 1 [9, 8, 7, 6]).data.getD 1 0,
          (ImageData.mk 1 1 [9, 8, 7, 6]).data.getD 2 0) :=
  (buildPalette_one_pixel (ImageData.mk 1 1 [9, 8, 7, 6]) 3 8 (fun _ => 1) true true 4
      rfl rfl).2.2

/-- Witness for C5's amended theorem at a concrete non-empty image. -/
theorem imageSamples_proper_iff_witness :
    (0 : Nat) <
        (ImageData.mk 1 1 [5, 6, 7, 8]).width * (ImageData.mk 1 1 [5, 6, 7, 8]).height ∧
      ((imageSamples (ImageData.mk 1 1 [5, 6, 7, 8]).data
            (max 1 ((ImageData.mk 1 1 [5, 6, 7, 8]).width *
              (ImageData.mk 1 1 [5, 6, 7, 8]).height / 5000))
            ((ImageData.mk 1 1 [5, 6, 7, 8]).width *
              (ImageData.mk 1 1 [5, 6, 7, 8]).height)).length <
          (ImageData.mk 1 1 [5, 6, 7, 8]).width * (ImageData.mk 1 1 [5, 6, 7, 8]).height ↔
        10000 ≤ (ImageData.mk 1 1 [5, 6, 7, 8]).width * (ImageData.mk 1 1 [5, 6, 7, 8]).height) :=
  ⟨by decide, (imageSamples_proper_iff (ImageData.mk 1 1 [5, 6, 7, 8]) (by decide)).1⟩

/-! ### Claim C2: quantization rewrites each pixel to its nearest palette entry -/

theorem nearestLoop_cons (r g b : Nat) (c : RGB) (cs : List RGB) (p bi : Nat)
    (bd : Option Int) :
    nearestLoop r g b (c :: cs) p (bi, bd) =
      if ltBest (sqDist r g b c) bd then
        nearestLoop r g b cs (p + 1) (p, some (sqDist r g b c))
      else nearestLoop r g b cs (p + 1) (bi, bd) := rfl

theorem nearestLoop_some (r g b : Nat) :
    ∀ (rest : List RGB) (p bi : Nat) (v : Int),
      (nearestLoop r g b rest p (bi, some v) = (bi, some v) ∧
        ∀ q, q < rest.length → v ≤ sqDist r g b (rest.getD q (0, 0, 0))) ∨
      (∃ j, j < rest.length ∧
        nearestLoop r g b rest p (bi, some v) =
          (p + j, some (sqDist r g b (rest.getD j (0, 0, 0)))) ∧
        sqDist r g b (rest.getD j (0, 0, 0)) < v ∧
        (∀ q, q < rest.length →
          sqDist r g b (rest.getD j (0, 0, 0)) ≤ sqDist r g b (rest.getD q (0, 0, 0))) ∧
        (∀ q, q < j →
          sqDist r g b (rest.getD j (0, 0, 0)) < sqDist r g b (rest.getD q (0, 0, 0)))) := by
  intro rest
  induction rest with
  | nil =>
    intro p bi v
    left
    exact ⟨rfl, fun q hq => absurd hq (by simp)⟩
  | cons c cs ih =>
    intro p bi v
    by_cases hlt : sqDist r g b c < v
    · have hunf : nearestLoop r g b (c :: cs) p (bi, some v) =
          nearestLoop r g b cs (p + 1) (p, some (sqDist r g b c)) := by
        rw [nearestLoop_cons, if_pos (by simp [ltBest, hlt])]
      rcases ih (p + 1) p (sqDist r g b c) with ⟨heq, hmin⟩ | ⟨j, hj, heq, hlt2, hmin, hstrict⟩
      · right
        refine ⟨0, by simp, ?_, by simpa using hlt, fun q hq => ?_, fun q hq => absurd hq (by omega)⟩
        · rw [hunf, heq]
          simp
        · rcases q with _ | q
          · simp
          · simpa using hmin q (by simpa using hq)
      · right
        refine ⟨j + 1, by simpa using hj, ?_, ?_, fun q hq => ?_, fun q hq => ?_⟩
        · rw [hunf, heq, show p + 1 + j = p + (j + 1) from by omega]
          simp
        · simpa using hlt2.trans hlt
        · rcases q with _ | q
          · simpa using (hlt2.trans_le (le_refl _)).le
          · simpa using hmin q (by simpa using hq)
        · rcases q with _ | q
          · simpa using hlt2
          · simpa using hstrict q (by omega)
    · have hunf : nearestLoop r g b (c :: cs) p (bi, some v) =
          nearestLoop r g b cs (p + 1) (bi, some v) := by
        rw [nearestLoop_cons, if_neg (by simp [ltBest, hlt])]
      rcases ih (p + 1) bi v with ⟨heq, hmin⟩ | ⟨j, hj, heq, hlt2, hmin, hstrict⟩
      · left
        refine ⟨by rw [hunf, heq], fun q hq => ?_⟩
        rcases q with _ | q
        · simpa using not_lt.mp hlt
        · simpa using hmin q (by simpa using hq)
      · right
        refine ⟨j + 1, by simpa using hj, ?_, ?_, fun q hq => ?_, fun q hq => ?_⟩
        · rw [hunf, heq, show p + 1 + j = p + (j + 1) from by omega]
          simp
        · simpa using hlt2
        · rcases q with _ | q
          · simpa using le_trans hlt2.le (not_lt.mp hlt)
          · simpa using hmin q (by simpa using hq)
        · rcases q with _ | q
          · simpa using lt_of_lt_of_le hlt2 (not_lt.mp hlt)
          · simpa using hstrict q (by omega)

/-- The chosen index is in range, attains the minimum squared distance, and is
strictly better than every earlier palette index. -/
theorem nearestIdx_spec (cs : List RGB) (r g b : Nat) (hne : cs ≠ []) :
    nearestIdx cs r g b < cs.length ∧
      (∀ q, q < cs.length →
        sqDist r g b (cs.getD (nearestIdx cs r g b) (0, 0, 0)) ≤
          sqDist r g b (cs.getD q (0, 0, 0))) ∧
      (∀ q, q < nearestIdx cs r g b →
        sqDist r g b (cs.getD (nearestIdx cs r g b) (0, 0, 0)) <
          sqDist r g b (cs.getD q (0, 0, 0))) := by
  rcases cs with _ | ⟨c, rest⟩
  · exact absurd rfl hne
  · unfold nearestIdx
    have hunf : nearestLoop r g b (c :: rest) 0 (0, none) =
        nearestLoop r g b rest 1 (0, some (sqDist r g b c)) := by
      rw [nearestLoop_cons, if_pos (by simp [ltBest])]
    rw [hunf]
    rcases nearestLoop_some r g b rest 1 0 (sqDist r g b c) with
      ⟨heq, hmin⟩ | ⟨j, hj, heq, hlt2, hmin, hstrict⟩
    · rw [heq]
      refine ⟨by simp, fun q hq => ?_, fun q hq => absurd hq (by simp)⟩
      rcases q with _ | q
      · simp
      · simp only [List.getD_cons_zero, List.getD_cons_succ]
        exact hmin q (by simpa using hq)
    · rw [heq, show (1 : Nat) + j = j + 1 from by omega]
      refine ⟨by simp; omega, fun q hq => ?_, fun q hq => ?_⟩
      · rcases q with _ | q
        · simpa using hlt2.le
        · simpa using hmin q (by simpa using hq)
      · rcases q with _ | q
        · simpa using hlt2
        · simp only [List.getD_cons_succ]
          exact hstrict q (by omega)

theorem quantizePixel_getD (palette : List RGB) (data : List Nat) (i m : Nat)
    (hlen : i * 4 + 3 ≤ data.length) :
    (quantizePixel palette data i).getD m 0 =
      if m = i * 4 then clampByte (nearestEntry palette data i).1
      else if m = i * 4 + 1 then clampByte (nearestEntry palette data i).2.1
      else if m = i * 4 + 2 then clampByte (nearestEntry palette data i).2.2
      else data.getD m 0 := by
  unfold quantizePixel nearestEntry
  simp only []
  rw [getD_set _ _ _ _ (by simp [List.length_set]; omega),
    getD_set _ _ _ _ (by simp [List.length_set]; omega), getD_set _ _ _ _ (by omega)]
  split_ifs <;> first | rfl | omega

theorem quantFold_spec (palette : List RGB) :
    ∀ (n : Nat) (data : List Nat), 4 * n ≤ data.length →
      (∀ i, i < n →
        ((List.range n).foldl (quantizePixel palette) data).getD (i * 4) 0 =
            clampByte (nearestEntry palette data i).1 ∧
          ((List.range n).foldl (quantizePixel palette) data).getD (i * 4 + 1) 0 =
            clampByte (nearestEntry palette data i).2.1 ∧
          ((List.range n).foldl (quantizePixel palette) data).getD (i * 4 + 2) 0 =
            clampByte (nearestEntry palette data i).2.2) ∧
      (∀ m, (m < 4 * n → m % 4 = 3) →
        ((List.range n).foldl (quantizePixel palette) data).getD m 0 = data.getD m 0) := by
  intro n
  induction n with
  | zero =>
    intro data hlen
    exact ⟨fun i hi => absurd hi (by omega), fun m hm => rfl⟩
  | succ n ih =>
    intro data hlen
    obtain ⟨ihpix, ihother⟩ := ih data (by omega)
    have hflen : ((List.range n).foldl (quantizePixel palette) data).length = data.length :=
      foldl_length _ (quantizePixel_length palette) _ _
    have hsnoc : (List.range (n + 1)).foldl (quantizePixel palette) data =
        quantizePixel palette ((List.range n).foldl (quantizePixel palette) data) n := by
      rw [List.range_succ, List.foldl_append, List.foldl_cons, List.foldl_nil]
    have hreads : ∀ c, c < 3 →
        ((List.range n).foldl (quantizePixel palette) data).getD (n * 4 + c) 0 =
          data.getD (n * 4 + c) 0 := by
      intro c hc
      exact ihother (n * 4 + c) (by omega)
    have hentry : nearestEntry palette ((List.range n).foldl (quantizePixel palette) data) n =
        nearestEntry palette data n := by
      unfold nearestEntry
      rw [show n * 4 = n * 4 + 0 from by omega, hreads 0 (by omega), hreads 1 (by omega),
        hreads 2 (by omega)]
    constructor
    · intro i hi
      rcases Nat.lt_or_ge i n with hin | hin
      · obtain ⟨h1, h2, h3⟩ := ihpix i hin
        refine ⟨?_, ?_, ?_⟩
        · rw [hsnoc, quantizePixel_getD _ _ _ _ (by rw [hflen]; omega),
            if_neg (by omega), if_neg (by omega), if_neg (by omega)]
          exact h1
        · rw [hsnoc, quantizePixel_getD _ _ _ _ (by rw [hflen]; omega),
            if_neg (by omega), if_neg (by omega), if_neg (by omega)]
          exact h2
        · rw [hsnoc, quantizePixel_getD _ _ _ _ (by rw [hflen]; omega),
            if_neg (by omega), if_neg (by omega), if_neg (by omega)]
          exact h3
      · have : i = n := by omega
        subst this
        refine ⟨?_, ?_, ?_⟩
        · rw [hsnoc, quantizePixel_getD _ _ _ _ (by rw [hflen]; omega)]
          rw [if_pos rfl, hentry]
        · rw [hsnoc, quantizePixel_getD _ _ _ _ (by rw [hflen]; omega)]
          rw [if_neg (by omega), if_pos rfl, hentry]
        · rw [hsnoc, quantizePixel_getD _ _ _ _ (by rw [hflen]; omega)]
          rw [if_neg (by omega), if_neg (by omega), if_pos rfl, hentry]
    · intro m hm
      rw [hsnoc, quantizePixel_getD _ _ _ _ (by rw [hflen]; omega)]
      rw [if_neg (by omega), if_neg (by omega), if_neg (by omega)]
      exact ihother m (by omega)

/-- C2: for every image buffer and every non-empty 8-bit palette, quantization
keeps the dimensions, overwrites each pixel's R/G/B with the palette entry at
minimum squared Euclidean RGB distance (choosing the lowest palette index on
ties, per the strict `<` scan), leaves the alpha byte unchanged, and
consequently the resulting RGB triple equals one of the palette entries. -/
theorem qunatizeImage_spec (img : ImageData) (palette : List RGB)
    (hne : palette ≠ [])
    (hpal : ∀ e ∈ palette, e.1 ≤ 255 ∧ e.2.1 ≤ 255 ∧ e.2.2 ≤ 255)
    (i : Nat) (hi : i < img.data.length / 4) :
    (qunatizeImage img palette).width = img.width ∧
    (qunatizeImage img palette).height = img.height ∧
    (∀ q, q < palette.length →
      sqDist (img.data.getD (i * 4) 0) (img.data.getD (i * 4 + 1) 0)
          (img.data.getD (i * 4 + 2) 0) (nearestEntry palette img.data i) ≤
        sqDist (img.data.getD (i * 4) 0) (img.data.getD (i * 4 + 1) 0)
          (img.data.getD (i * 4 + 2) 0) (palette.getD q (0, 0, 0))) ∧
    (∀ q, q < nearestIdx palette (img.data.getD (i * 4) 0) (img.data.getD (i * 4 + 1) 0)
        (img.data.getD (i * 4 + 2) 0) →
      sqDist (img.data.getD (i * 4) 0) (img.data.getD (i * 4 + 1) 0)
          (img.data.getD (i * 4 + 2) 0) (nearestEntry palette img.data i) <
        sqDist (img.data.getD (i * 4) 0) (img.data.getD (i * 4 + 1) 0)
          (img.data.getD (i * 4 + 2) 0) (palette.getD q (0, 0, 0))) ∧
    (qunatizeImage img palette).data.getD (i * 4) 0 = (nearestEntry palette img.data i).1 ∧
    (qunatizeImage img palette).data.getD (i * 4 + 1) 0 =
      (nearestEntry palette img.data i).2.1 ∧
    (qunatizeImage img palette).data.getD (i * 4 + 2) 0 =
      (nearestEntry palette img.data i).2.2 ∧
    (qunatizeImage img palette).data.getD (i * 4 + 3) 0 = img.data.getD (i * 4 + 3) 0 ∧
    ((qunatizeImage img palette).data.getD (i * 4) 0,
      (qunatizeImage img palette).data.getD (i * 4 + 1) 0,
      (qunatizeImage img palette).data.getD (i * 4 + 2) 0) ∈ palette := by
  have hlen4 : 4 * (img.data.length / 4) ≤ img.data.length := by omega
  obtain ⟨hfpix, hfother⟩ := quantFold_spec palette (img.data.length / 4) img.data hlen4
  obtain ⟨hb0, hb1, hb2⟩ := hfpix i hi
  obtain ⟨hidx, hmin, hstrict⟩ :=
    nearestIdx_spec palette (img.data.getD (i * 4) 0) (img.data.getD (i * 4 + 1) 0)
      (img.data.getD (i * 4 + 2) 0) hne
  have hmem : nearestEntry palette img.data i ∈ palette := by
    unfold nearestEntry
    rw [List.getD_eq_getElem _ _ hidx]
    exact List.getElem_mem _
  obtain ⟨hr, hg, hb⟩ := hpal _ hmem
  have hdata : (qunatizeImage img palette).data =
      (List.range (img.data.length / 4)).foldl (quantizePixel palette) img.data := rfl
  have hentryD : palette.getD
      (nearestIdx palette (img.data.getD (i * 4) 0) (img.data.getD (i * 4 + 1) 0)
        (img.data.getD (i * 4 + 2) 0)) (0, 0, 0) = nearestEntry palette img.data i := rfl
  refine ⟨rfl, rfl, ?_, ?_, ?_, ?_, ?_, ?_, ?_⟩
  · intro q hq
    rw [← hentryD]
    exact hmin q hq
  · intro q hq
    rw [← hentryD]
    exact hstrict q hq
  · rw [hdata, hb0, clampByte_eq hr]
  · rw [hdata, hb1, clampByte_eq hg]
  · rw [hdata, hb2, clampByte_eq hb]
  · rw [hdata]
    exact hfother (i * 4 + 3) (fun _ => by omega)
  · rw [hdata, hb0, hb1, hb2, clampByte_eq hr, clampByte_eq hg, clampByte_eq hb]
    simpa using hmem

/-- Witness for C2 at a concrete image and palette: the quantized pixel's RGB
triple is one of the palette entries. -/
theorem qunatizeImage_spec_witness :
    ((qunatizeImage (ImageData.mk 1 1 [10, 20, 30, 40])
        [(0, 0, 0), (255, 255, 255)]).data.getD (0 * 4) 0,
      (qunatizeImage (ImageData.mk 1 1 [10, 20, 30, 40])
        [(0, 0, 0), (255, 255, 255)]).data.getD (0 * 4 + 1) 0,
      (qunatizeImage (ImageData.mk 1 1 [10, 20, 30, 40])
        [(0, 0, 0), (255, 255, 255)]).data.getD (0 * 4 + 2) 0) ∈
      [((0 : Nat), (0 : Nat), (0 : Nat)), (255, 255, 255)] :=
  (qunatizeImage_spec (ImageData.mk 1 1 [10, 20, 30, 40]) [(0, 0, 0), (255, 255, 255)]
      (by decide) (by decide) 0 (by decide)).2.2.2.2.2.2.2.2

/-! ### Claims C3 and C10: pixelation -/

theorem setRGBA_getD (data : List Nat) (idx r g b a m : Nat) (hlen : idx + 3 < data.length) :
    (setRGBA data idx r g b a).getD m 0 =
      if m = idx then clampByte r
      else if m = idx + 1 then clampByte g
      else if m = idx + 2 then clampByte b
      else if m = idx + 3 then clampByte a
      else data.getD m 0 := by
  unfold setRGBA
  rw [getD_set _ _ _ _ (by simp only [List.length_set]; omega),
    getD_set _ _ _ _ (by simp only [List.length_set]; omega),
    getD_set _ _ _ _ (by simp only [List.length_set]; omega),
    getD_set _ _ _ _ (by omega)]
  split_ifs <;> first | rfl | omega

theorem fillRow_getD (w h r g b a y : Nat) (hy : y < h) :
    ∀ (cnt x0 : Nat) (data : List Nat), data.length = 4 * (w * h) → x0 + cnt ≤ w →
      ∀ (x2 y2 c : Nat), x2 < w → y2 < h → c < 4 →
        ((List.range' x0 cnt).foldl
              (fun d2 x => setRGBA d2 ((y * w + x) * 4) r g b a) data).getD
            ((y2 * w + x2) * 4 + c) 0 =
          if y2 = y ∧ x0 ≤ x2 ∧ x2 < x0 + cnt then rgbaComp r g b a c
          else data.getD ((y2 * w + x2) * 4 + c) 0 := by
  intro cnt
  induction cnt with
  | zero =>
    intro x0 data hlen hbound x2 y2 c hx2 hy2 hc
    rw [List.range'_zero, List.foldl_nil, if_neg (by omega)]
  | succ cnt ih =>
    intro x0 data hlen hbound x2 y2 c hx2 hy2 hc
    rw [List.range'_succ, List.foldl_cons,
      ih (x0 + 1) (setRGBA data ((y * w + x0) * 4) r g b a)
        (by rw [setRGBA_length]; exact hlen) (by omega) x2 y2 c hx2 hy2 hc]
    have hx0 : x0 < w := by omega
    have hcb : (y * w + x0) * 4 + 3 < data.length := by
      have := pix_lt hx0 hy
      omega
    by_cases hin : y2 = y ∧ x0 + 1 ≤ x2 ∧ x2 < x0 + 1 + cnt
    · rw [if_pos hin, if_pos ⟨hin.1, by omega, by omega⟩]
    · rw [if_neg hin, setRGBA_getD _ _ _ _ _ _ _ hcb]
      by_cases hhit : y2 = y ∧ x2 = x0
      · obtain ⟨hy2eq, hx2eq⟩ := hhit
        rw [hy2eq, hx2eq]
        rw [if_pos (show y = y ∧ x0 ≤ x0 ∧ x0 < x0 + (cnt + 1) from
          ⟨rfl, le_refl x0, by omega⟩)]
        unfold rgbaComp
        split_ifs <;> first | rfl | omega
      · have hpixne : y2 * w + x2 ≠ y * w + x0 := by
          intro he
          obtain ⟨he1, he2⟩ := pix_inj hx2 hx0 he
          exact hhit ⟨he2, he1⟩
        rw [if_neg (by omega), if_neg (by omega), if_neg (by omega), if_neg (by omega),
          if_neg ?_]
        intro hfull
        apply hhit
        refine ⟨hfull.1, ?_⟩
        by_contra hne
        exact hin ⟨hfull.1, by omega, by omega⟩

theorem fillRows_getD (w h r g b a x0 xcnt : Nat) (hxb : x0 + xcnt ≤ w) :
    ∀ (rcnt y0 : Nat) (data : List Nat), data.length = 4 * (w * h) → y0 + rcnt ≤ h →
      ∀ (x2 y2 c : Nat), x2 < w → y2 < h → c < 4 →
        ((List.range' y0 rcnt).foldl
              (fun d y => (List.range' x0 xcnt).foldl
                (fun d2 x => setRGBA d2 ((y * w + x) * 4) r g b a) d) data).getD
            ((y2 * w + x2) * 4 + c) 0 =
          if y0 ≤ y2 ∧ y2 < y0 + rcnt ∧ x0 ≤ x2 ∧ x2 < x0 + xcnt then rgbaComp r g b a c
          else data.getD ((y2 * w + x2) * 4 + c) 0 := by
  intro rcnt
  induction rcnt with
  | zero =>
    intro y0 data hlen hyb x2 y2 c hx2 hy2 hc
    rw [List.range'_zero, List.foldl_nil, if_neg (by omega)]
  | succ rcnt ih =>
    intro y0 data hlen hyb x2 y2 c hx2 hy2 hc
    rw [List.range'_succ, List.foldl_cons,
      ih (y0 + 1) _
        (by
          rw [foldl_length _ (fun d2 x => setRGBA_length _ _ _ _ _ _)]
          exact hlen)
        (by omega) x2 y2 c hx2 hy2 hc,
      fillRow_getD w h r g b a y0 (by omega) xcnt x0 data hlen hxb x2 y2 c hx2 hy2 hc]
    split_ifs <;> first | rfl | omega

theorem fillBlock_getD (w h size yb bx : Nat) (data : List Nat)
    (hlen : data.length = 4 * (w * h)) (hyb : yb < h) (hbx : bx < w)
    (x2 y2 c : Nat) (hx2 : x2 < w) (hy2 : y2 < h) (hc : c < 4) :
    (fillBlock w h size yb bx data).getD ((y2 * w + x2) * 4 + c) 0 =
      if yb ≤ y2 ∧ y2 < min (yb + size) h ∧ bx ≤ x2 ∧ x2 < min (bx + size) w then
        clampByte (data.getD
          ((min (yb + size / 2) (h - 1) * w + min (bx + size / 2) (w - 1)) * 4 + c) 0)
      else data.getD ((y2 * w + x2) * 4 + c) 0 := by
  unfold fillBlock
  simp only []
  rw [fillRows_getD w h _ _ _ _ bx (min (bx + size) w - bx) (by omega)
    (min (yb + size) h - yb) yb data hlen (by omega) x2 y2 c hx2 hy2 hc]
  split_ifs with h1 h2
  · unfold rgbaComp
    interval_cases c <;> norm_num
  · omega
  · omega
  · rfl

theorem rowFold_getD (w h size yb : Nat) (hs : 0 < size) (hyb : yb < h) :
    ∀ (nj : Nat), nj ≤ (w + size - 1) / size →
      ∀ (data : List Nat), data.length = 4 * (w * h) →
      ∀ (x2 y2 c : Nat), x2 < w → y2 < h → c < 4 →
        (((List.range nj).map (fun j => j * size)).foldl
              (fun d bx => fillBlock w h size yb bx d) data).getD
            ((y2 * w + x2) * 4 + c) 0 =
          if yb ≤ y2 ∧ y2 < min (yb + size) h ∧ x2 < nj * size then
            clampByte (data.getD
              ((min (yb + size / 2) (h - 1) * w +
                min (x2 / size * size + size / 2) (w - 1)) * 4 + c) 0)
          else data.getD ((y2 * w + x2) * 4 + c) 0 := by
  intro nj
  induction nj with
  | zero =>
    intro hnj data hlen x2 y2 c hx2 hy2 hc
    rw [List.range_zero, List.map_nil, List.foldl_nil, if_neg (by omega)]
  | succ nj ih =>
    intro hnj data hlen x2 y2 c hx2 hy2 hc
    have hexp : (nj + 1) * size = nj * size + size := by ring
    have hbxlt : nj * size < w := (lt_ceilDiv_iff hs).mp (by omega)
    have hplen : (((List.range nj).map (fun j => j * size)).foldl
        (fun d bx => fillBlock w h size yb bx d) data).length = 4 * (w * h) := by
      rw [foldl_length _ (fun d bx => fillBlock_length _ _ _ _ _ _)]
      exact hlen
    rw [List.range_succ, List.map_append, List.foldl_append]
    simp only [List.map_cons, List.map_nil, List.foldl_cons, List.foldl_nil]
    rw [fillBlock_getD w h size yb (nj * size) _ hplen hyb hbxlt x2 y2 c hx2 hy2 hc]
    by_cases hnew : yb ≤ y2 ∧ y2 < min (yb + size) h ∧ nj * size ≤ x2 ∧
        x2 < min (nj * size + size) w
    · have hdiv : x2 / size = nj := div_in_block (by omega) (by omega)
      have hcywf : min (yb + size / 2) (h - 1) < h := by omega
      have hcxwf : min (nj * size + size / 2) (w - 1) < w := by omega
      rw [if_pos hnew,
        ih (by omega) data hlen (min (nj * size + size / 2) (w - 1))
          (min (yb + size / 2) (h - 1)) c hcxwf hcywf hc,
        if_neg (by omega),
        if_pos (show yb ≤ y2 ∧ y2 < min (yb + size) h ∧ x2 < (nj + 1) * size from
          ⟨hnew.1, hnew.2.1, by omega⟩),
        hdiv]
    · rw [if_neg hnew, ih (by omega) data hlen x2 y2 c hx2 hy2 hc]
      by_cases hold : yb ≤ y2 ∧ y2 < min (yb + size) h ∧ x2 < nj * size
      · rw [if_pos hold,
          if_pos (show yb ≤ y2 ∧ y2 < min (yb + size) h ∧ x2 < (nj + 1) * size from
            ⟨hold.1, hold.2.1, by omega⟩)]
      · have hfullneg : ¬ (yb ≤ y2 ∧ y2 < min (yb + size) h ∧ x2 < (nj + 1) * size) := by
          intro hfull
          exact hnew ⟨hfull.1, hfull.2.1, by omega, by omega⟩
        rw [if_neg hold, if_neg hfullneg]

theorem pixelateRow_getD (w h size yb : Nat) (hs : 0 < size) (hyb : yb < h)
    (data : List Nat) (hlen : data.length = 4 * (w * h))
    (x2 y2 c : Nat) (hx2 : x2 < w) (hy2 : y2 < h) (hc : c < 4) :
    (pixelateRow w h size yb data).getD ((y2 * w + x2) * 4 + c) 0 =
      if yb ≤ y2 ∧ y2 < min (yb + size) h then
        clampByte (data.getD
          ((min (yb + size / 2) (h - 1) * w +
            min (x2 / size * size + size / 2) (w - 1)) * 4 + c) 0)
      else data.getD ((y2 * w + x2) * 4 + c) 0 := by
  unfold pixelateRow blockStarts
  rw [rowFold_getD w h size yb hs hyb ((w + size - 1) / size) (le_refl _) data hlen
    x2 y2 c hx2 hy2 hc]
  have hcov : x2 < ((w + size - 1) / size) * size := by
    have := @ceilDiv_mul_ge size w hs
    omega
  by_cases hyy : yb ≤ y2 ∧ y2 < min (yb + size) h
  · rw [if_pos ⟨hyy.1, hyy.2, hcov⟩, if_pos hyy]
  · rw [if_neg (fun hall => hyy ⟨hall.1, hall.2.1⟩), if_neg hyy]

theorem colFold_getD (w h size : Nat) (hs : 0 < size) :
    ∀ (nj : Nat), nj ≤ (h + size - 1) / size →
      ∀ (data : List Nat), data.length = 4 * (w * h) →
      ∀ (x2 y2 c : Nat), x2 < w → y2 < h → c < 4 →
        (((List.range nj).map (fun j => j * size)).foldl
              (fun d yb => pixelateRow w h size yb d) data).getD
            ((y2 * w + x2) * 4 + c) 0 =
          if y2 < nj * size then
            clampByte (data.getD
              ((min (y2 / size * size + size / 2) (h - 1) * w +
                min (x2 / size * size + size / 2) (w - 1)) * 4 + c) 0)
          else data.getD ((y2 * w + x2) * 4 + c) 0 := by
  intro nj
  induction nj with
  | zero =>
    intro hnj data hlen x2 y2 c hx2 hy2 hc
    rw [List.range_zero, List.map_nil, List.foldl_nil, if_neg (by omega)]
  | succ nj ih =>
    intro hnj data hlen x2 y2 c hx2 hy2 hc
    have hexp : (nj + 1) * size = nj * size + size := by ring
    have hyblt : nj * size < h := (lt_ceilDiv_iff hs).mp (by omega)
    have hplen : (((List.range nj).map (fun j => j * size)).foldl
        (fun d yb => pixelateRow w h size yb d) data).length = 4 * (w * h) := by
      rw [foldl_length _ (fun d yb => pixelateRow_length _ _ _ _ _)]
      exact hlen
    rw [List.range_succ, List.map_append, List.foldl_append]
    simp only [List.map_cons, List.map_nil, List.foldl_cons, List.foldl_nil]
    rw [pixelateRow_getD w h size (nj * size) hs hyblt _ hplen x2 y2 c hx2 hy2 hc]
    by_cases hnew : nj * size ≤ y2 ∧ y2 < min (nj * size + size) h
    · have hdiv : y2 / size = nj := div_in_block (by omega) (by omega)
      have hcywf : min (nj * size + size / 2) (h - 1) < h := by omega
      have hcxwf : min (x2 / size * size + size / 2) (w - 1) < w := by omega
      rw [if_pos hnew,
        ih (by omega) data hlen (min (x2 / size * size + size / 2) (w - 1))
          (min (nj * size + size / 2) (h - 1)) c hcxwf hcywf hc,
        if_neg (by omega),
        if_pos (show y2 < (nj + 1) * size from by omega),
        hdiv]
    · rw [if_neg hnew, ih (by omega) data hlen x2 y2 c hx2 hy2 hc]
      by_cases hold : y2 < nj * size
      · rw [if_pos hold, if_pos (show y2 < (nj + 1) * size from by omega)]
      · have hfullneg : ¬ y2 < (nj + 1) * size := by
          intro hfull
          exact hnew ⟨by omega, by omega⟩
        rw [if_neg hold, if_neg hfullneg]

theorem pixelateData_getD (w h size : Nat) (hs : 0 < size) (data : List Nat)
    (hlen : data.length = 4 * (w * h)) (x y c : Nat)
    (hx : x < w) (hy : y < h) (hc : c < 4) :
    (pixelateData w h size data).getD ((y * w + x) * 4 + c) 0 =
      clampByte (data.getD
        ((min (y / size * size + size / 2) (h - 1) * w +
          min (x / size * size + size / 2) (w - 1)) * 4 + c) 0) := by
  unfold pixelateData blockStarts
  rw [colFold_getD w h size hs ((h + size - 1) / size) (le_refl _) data hlen
    x y c hx hy hc]
  have hcov : y < ((h + size - 1) / size) * size := by
    have := @ceilDiv_mul_ge size h hs
    omega
  rw [if_pos hcov]

theorem getD_le_255 {img : ImageData} (hwf : WellFormed img) {m : Nat}
    (hm : m < img.data.length) : img.data.getD m 0 ≤ 255 := by
  rw [List.getD_eq_getElem _ _ hm]
  exact hwf.2 _ (List.getElem_mem _)

/-- C3: for every well-formed buffer and block-size parameter, pixelation keeps
the dimensions and byte length, and the pixel at `(x, y)` of the result carries
the source's RGBA value at the clamped center
`(blockX + ⌊size/2⌋, blockY + ⌊size/2⌋)` of the size-aligned block containing
`(x, y)`, where `size = max(1, ⌊blockSize⌋)`; in particular every block fully
inside the image is uniform and equal to the original value at its center. -/
theorem pixelateImage_spec (img : ImageData) (blockSize : Int) (hwf : WellFormed img)
    (x y c : Nat) (hx : x < img.width) (hy : y < img.height) (hc : c < 4) :
    (pixelateImage img blockSize).width = img.width ∧
    (pixelateImage img blockSize).height = img.height ∧
    (pixelateImage img blockSize).data.length = img.data.length ∧
    (pixelateImage img blockSize).data.getD ((y * img.width + x) * 4 + c) 0 =
      img.data.getD
        ((min (y / (max 1 blockSize).toNat * (max 1 blockSize).toNat +
            (max 1 blockSize).toNat / 2) (img.height - 1) * img.width +
          min (x / (max 1 blockSize).toNat * (max 1 blockSize).toNat +
            (max 1 blockSize).toNat / 2) (img.width - 1)) * 4 + c) 0 := by
  have hs : 0 < (max 1 blockSize).toNat := by omega
  have hctr : (min (y / (max 1 blockSize).toNat * (max 1 blockSize).toNat +
        (max 1 blockSize).toNat / 2) (img.height - 1) * img.width +
      min (x / (max 1 blockSize).toNat * (max 1 blockSize).toNat +
        (max 1 blockSize).toNat / 2) (img.width - 1)) * 4 + c < img.data.length := by
    have hp := pix_lt (x := min (x / (max 1 blockSize).toNat * (max 1 blockSize).toNat +
        (max 1 blockSize).toNat / 2) (img.width - 1))
      (y := min (y / (max 1 blockSize).toNat * (max 1 blockSize).toNat +
        (max 1 blockSize).toNat / 2) (img.height - 1))
      (w := img.width) (h := img.height) (by omega) (by omega)
    have hlen := hwf.1
    omega
  refine ⟨rfl, rfl, pixelateImage_length img blockSize, ?_⟩
  have hval := pixelateData_getD img.width img.height (max 1 blockSize).toNat hs img.data
    hwf.1 x y c hx hy hc
  have hres : (pixelateImage img blockSize).data =
      pixelateData img.width img.height (max 1 blockSize).toNat img.data := rfl
  rw [hres, hval, clampByte_eq (getD_le_255 hwf hctr)]

theorem byte_decode {m w h : Nat} (hm : m < 4 * (w * h)) :
    (m / 4) % w < w ∧ (m / 4) / w < h ∧ m % 4 < 4 ∧
      ((m / 4) / w * w + (m / 4) % w) * 4 + m % 4 = m := by
  have hw : 0 < w := by
    rcases Nat.eq_zero_or_pos w with rfl | hw
    · simp at hm
    · exact hw
  have h1 := Nat.div_add_mod (m / 4) w
  have h2 := Nat.mod_lt (m / 4) hw
  have h3 : m / 4 < w * h := by omega
  have hcomm : w * h = h * w := Nat.mul_comm w h
  have h4 : (m / 4) / w < h := by
    rw [Nat.div_lt_iff_lt_mul hw]
    omega
  have hc2 : (m / 4) / w * w = w * ((m / 4) / w) := Nat.mul_comm _ _
  exact ⟨h2, h4, by omega, by omega⟩

theorem clampByte_idem (v : Nat) : clampByte (clampByte v) = clampByte v := by
  unfold clampByte
  omega

theorem center_div_self (x w size : Nat) (hs : 0 < size) (hx : x < w) :
    min (x / size * size + size / 2) (w - 1) / size = x / size := by
  have h1 : x / size * size ≤ x := Nat.div_mul_le_self x size
  have hexp : (x / size + 1) * size = x / size * size + size := by ring
  apply div_in_block
  · omega
  · omega

theorem pixelateData_idem (w h size : Nat) (hs : 0 < size) (data : List Nat)
    (hlen : data.length = 4 * (w * h)) :
    pixelateData w h size (pixelateData w h size data) = pixelateData w h size data := by
  have hlen1 : (pixelateData w h size data).length = 4 * (w * h) := by
    rw [pixelateData_length]
    exact hlen
  apply List.ext_getElem
  · rw [pixelateData_length, pixelateData_length]
  · intro n h1 h2
    have hn4 : n < 4 * (w * h) := by
      rw [pixelateData_length, pixelateData_length, hlen] at h1
      exact h1
    obtain ⟨hxlt, hylt, hclt, hdec⟩ := byte_decode hn4
    have hbx : min ((n / 4) % w / size * size + size / 2) (w - 1) < w := by
      have hw : 0 < w := Nat.lt_of_le_of_lt (Nat.zero_le _) hxlt
      exact lt_of_le_of_lt (Nat.min_le_right _ _) (Nat.sub_lt hw Nat.one_pos)
    have hby : min ((n / 4) / w / size * size + size / 2) (h - 1) < h := by
      have hh : 0 < h := Nat.lt_of_le_of_lt (Nat.zero_le _) hylt
      exact lt_of_le_of_lt (Nat.min_le_right _ _) (Nat.sub_lt hh Nat.one_pos)
    rw [← List.getD_eq_getElem _ 0 h1, ← List.getD_eq_getElem _ 0 h2, ← hdec]
    rw [pixelateData_getD w h size hs _ hlen1 _ _ _ hxlt hylt hclt,
      pixelateData_getD w h size hs data hlen _ _ _ hxlt hylt hclt,
      pixelateData_getD w h size hs data hlen
        (min ((n / 4) % w / size * size + size / 2) (w - 1))
        (min ((n / 4) / w / size * size + size / 2) (h - 1)) (n % 4)
        hbx hby hclt,
      center_div_self ((n / 4) / w) h size hs hylt,
      center_div_self ((n / 4) % w) w size hs hxlt, clampByte_idem]

/-- C10: pixelation is idempotent on well-formed buffers: a second pass with the
same block size rewrites every block with its own already-uniform center value. -/
theorem pixelateImage_idempotent (img : ImageData) (blockSize : Int)
    (hwf : WellFormed img) :
    pixelateImage (pixelateImage img blockSize) blockSize = pixelateImage img blockSize := by
  have hs : 0 < (max 1 blockSize).toNat := by omega
  have h1 : pixelateImage (pixelateImage img blockSize) blockSize =
      ⟨img.width, img.height,
        pixelateData img.width img.height (max 1 blockSize).toNat
          (pixelateData img.width img.height (max 1 blockSize).toNat img.data)⟩ := rfl
  have h2 : pixelateImage img blockSize =
      ⟨img.width, img.height,
        pixelateData img.width img.height (max 1 blockSize).toNat img.data⟩ := rfl
  rw [h1, h2, pixelateData_idem img.width img.height (max 1 blockSize).toNat hs img.data hwf.1]

/-- Witness for C10 at a concrete image and block size. -/
theorem pixelateImage_idempotent_witness :
    pixelateImage (pixelateImage sampleImage22 2) 2 = pixelateImage sampleImage22 2 :=
  pixelateImage_idempotent sampleImage22 2 ⟨by decide, by decide⟩

/-- Witness for C3 at a concrete image, block size 2, pixel (0,0), channel 0. -/
theorem pixelateImage_spec_witness :
    (pixelateImage sampleImage22 2).width = sampleImage22.width ∧
    (pixelateImage sampleImage22 2).height = sampleImage22.height ∧
    (pixelateImage sampleImage22 2).data.length = sampleImage22.data.length ∧
    (pixelateImage sampleImage22 2).data.getD ((0 * sampleImage22.width + 0) * 4 + 0) 0 =
      sampleImage22.data.getD
        ((min (0 / (max 1 (2 : Int)).toNat * (max 1 (2 : Int)).toNat +
            (max 1 (2 : Int)).toNat / 2) (sampleImage22.height - 1) * sampleImage22.width +
          min (0 / (max 1 (2 : Int)).toNat * (max 1 (2 : Int)).toNat +
            (max 1 (2 : Int)).toNat / 2) (sampleImage22.width - 1)) * 4 + 0) 0 :=
  pixelateImage_spec sampleImage22 2 ⟨by decide, by decide⟩ 0 0 0 (by decide) (by decide)
    (by decide)
